import Mathlib

/-
Verification of the log-interception subsystem (`core/log_listener.py`).

The development shallowly embeds the `LogListener` class together with the
fragment of the logging backend it manipulates.  Handler objects are modelled
by their identity (a numeric id, allocated from a counter that plays the role
of object allocation) plus the one attribute the backend's delivery loop
reads, the handler level.  Python dictionaries are modelled as
insertion-ordered association lists, Python sets as duplicate-free lists, and
callbacks by numeric ids together with an environment saying which callback
raises when invoked.
-/

set_option maxRecDepth 8000

namespace XAILog

/-! ### Python dictionaries as insertion-ordered association lists -/

/-- Lookup, modelling `d[k]` / `d.get(k)`: the value at the first matching
key (keys built by `dictInsert` are unique). -/
def dictGet [DecidableEq κ] : List (κ × α) → κ → Option α
  | [], _ => none
  | (k1, v) :: rest, k => if k1 = k then some v else dictGet rest k

/-- Assignment `d[k] = v`: update in place when the key is present (Python
dicts keep the original position), append otherwise. -/
def dictInsert [DecidableEq κ] : List (κ × α) → κ → α → List (κ × α)
  | [], k, v => [(k, v)]
  | (k1, v1) :: rest, k, v =>
      if k1 = k then (k1, v) :: rest else (k1, v1) :: dictInsert rest k v

/-- Deletion `del d[k]` / `d.pop(k, None)`: drop the entry for `k`.  Key lists
built by `dictInsert` never repeat a key, so dropping every match coincides
with deleting the single entry. -/
def dictErase [DecidableEq κ] : List (κ × α) → κ → List (κ × α)
  | [], _ => []
  | (k1, v1) :: rest, k =>
      if k1 = k then dictErase rest k else (k1, v1) :: dictErase rest k

/-- Membership `k in d`. -/
def dictContains [DecidableEq κ] (d : List (κ × α)) (k : κ) : Bool :=
  (dictGet d k).isSome

/-- Lookup with default, `d.get(k, v)`. -/
def dictGetD [DecidableEq κ] (d : List (κ × α)) (k : κ) (v : α) : α :=
  (dictGet d k).getD v

/-- Python `set.add`: no-op when present, otherwise insert. -/
def setAdd [DecidableEq α] (l : List α) (a : α) : List α :=
  if a ∈ l then l else l ++ [a]

/-- Python `list.remove` (first occurrence). -/
def listRemove [DecidableEq α] : List α → α → List α
  | [], _ => []
  | x :: xs, a => if x = a then xs else x :: listRemove xs a

/-! ### The logging backend fragment the listener manipulates -/

/-- A backend handler object: its identity (`hid`, standing for the object
identity Python compares with `in`/`remove`) and its level attribute, the
only field the backend's delivery loop consults. -/
structure Handler where
  hid : Nat
  hlevel : Nat
deriving DecidableEq

/-- A backend logger: its attached handler list (in order) and its
`propagate` flag.  A fresh Python logger has no handlers and propagates. -/
structure Logger where
  handlers : List Handler
  propagate : Bool
deriving DecidableEq

/-- CPython `Logger.addHandler`: append unless the object is already
present. -/
def addHandler (l : Logger) (h : Handler) : Logger :=
  if h ∈ l.handlers then l else { l with handlers := l.handlers ++ [h] }

/-- CPython `Logger.removeHandler`: remove the first occurrence when
present. -/
def removeHandler (l : Logger) (h : Handler) : Logger :=
  if h ∈ l.handlers then { l with handlers := listRemove l.handlers h } else l

/-- CPython `Logger.callHandlers` restricted to one logger: the ids of the
handlers that receive a record of level `levelno`, in attachment order
(a handler receives the record when `levelno >= handler.level`). -/
def callHandlers (l : Logger) (levelno : Nat) : List Nat :=
  (l.handlers.filter (fun h => h.hlevel ≤ levelno)).map Handler.hid

/-! ### Listener data model -/

/-- The `LogLevel` enumeration of the module. -/
inductive LogLevel where
  | debug
  | info
  | warning
  | error
  | critical
deriving DecidableEq

/-- The numeric `logging` value of each enumeration member. -/
def LogLevel.value : LogLevel → Nat
  | .debug => 10
  | .info => 20
  | .warning => 30
  | .error => 40
  | .critical => 50

/-- The module's `LogRecord` dataclass (the float timestamp is carried as an
opaque Nat; the `extra` dict is empty at every construction site and is
omitted). -/
structure LogRecord where
  loggerName : String
  level : Nat
  levelName : String
  message : String
  timestamp : Nat
  pathname : String
  lineno : Nat
  funcName : String
deriving DecidableEq

/-- The mutable fields of the `LogListener` singleton.  Callbacks are
identified by numeric ids; keyword entries pair a callback id with its
`case_sensitive` flag. -/
structure ListenerState where
  watchedLoggers : List String
  handlers : List (String × Handler)
  interceptSettings : List (String × Bool)
  originalHandlers : List (String × List Handler)
  originalPropagate : List (String × Bool)
  levelCallbacks : List (Nat × List Nat)
  keywordCallbacks : List (String × List (Nat × Bool))
  globalCallbacks : List Nat
  running : Bool
deriving DecidableEq

/-- The state set up by `LogListener.__init__`. -/
def initListener : ListenerState :=
  { watchedLoggers := []
    handlers := []
    interceptSettings := []
    originalHandlers := []
    originalPropagate := []
    levelCallbacks := []
    keywordCallbacks := []
    globalCallbacks := []
    running := false }

/-- The listener together with the logging backend it acts on: the logger
table (`logging.getLogger` is total: every name denotes a logger) and the
allocation counter producing fresh handler identities. -/
structure Sys where
  loggers : String → Logger
  nextId : Nat
  st : ListenerState

/-- Pointwise update of the logger table. -/
def setLogger (f : String → Logger) (n : String) (l : Logger) : String → Logger :=
  fun m => if m = n then l else f m

/-- A freshly constructed listener over a given backend. -/
def initSys (env : String → Logger) : Sys :=
  { loggers := env, nextId := 0, st := initListener }

/-- The capturing `CallbackHandler` built by `_attach_handler`: a fresh
object whose level is set to `logging.DEBUG` (10). -/
def capturingHandler (i : Nat) : Handler :=
  { hid := i, hlevel := 10 }

/-! ### Attach / detach (`_attach_handler`, `_detach_handler`) -/

/-- `LogListener._attach_handler`. -/
def attachHandler (s : Sys) (name : String) : Sys :=
  let logger := s.loggers name
  let handler := capturingHandler s.nextId
  if dictGetD s.st.interceptSettings name false then
    let logger1 : Logger := { logger with propagate := false }
    let origHandlers := logger1.handlers
    let logger2 := origHandlers.foldl removeHandler logger1
    let logger3 := addHandler logger2 handler
    { loggers := setLogger s.loggers name logger3
      nextId := s.nextId + 1
      st := { s.st with
        originalPropagate := dictInsert s.st.originalPropagate name logger.propagate
        originalHandlers := dictInsert s.st.originalHandlers name origHandlers
        handlers := dictInsert s.st.handlers name handler } }
  else
    let logger3 := addHandler logger handler
    { loggers := setLogger s.loggers name logger3
      nextId := s.nextId + 1
      st := { s.st with handlers := dictInsert s.st.handlers name handler } }

/-- `LogListener._detach_handler`. -/
def detachHandler (s : Sys) (name : String) : Sys :=
  match dictGet s.st.handlers name with
  | none => s
  | some handler =>
    let logger1 := removeHandler (s.loggers name) handler
    let st1 := { s.st with handlers := dictErase s.st.handlers name }
    let p1 : Logger × ListenerState :=
      match dictGet st1.originalHandlers name with
      | none => (logger1, st1)
      | some orig =>
          (orig.foldl addHandler logger1,
           { st1 with originalHandlers := dictErase st1.originalHandlers name })
    let p2 : Logger × ListenerState :=
      match dictGet p1.2.originalPropagate name with
      | none => p1
      | some b =>
          ({ p1.1 with propagate := b },
           { p1.2 with originalPropagate := dictErase p1.2.originalPropagate name })
    { loggers := setLogger s.loggers name p2.1, nextId := s.nextId, st := p2.2 }

/-! ### Watch configuration (`watch`, `unwatch`) -/

/-- `LogListener.watch` (the returned state is the `self` the method hands
back for chaining). -/
def watch (s : Sys) (name : String) (intercept : Bool) : Sys :=
  let s1 : Sys := { s with st := { s.st with
    watchedLoggers := setAdd s.st.watchedLoggers name
    interceptSettings := dictInsert s.st.interceptSettings name intercept } }
  if s1.st.running && !dictContains s1.st.handlers name then
    attachHandler s1 name
  else
    s1

/-- `LogListener.unwatch`. -/
def unwatch (s : Sys) (name : String) : Sys :=
  let s1 : Sys := { s with st := { s.st with
    watchedLoggers := listRemove s.st.watchedLoggers name } }
  let s2 := if dictContains s1.st.handlers name then detachHandler s1 name else s1
  { s2 with st := { s2.st with
      interceptSettings := dictErase s2.st.interceptSettings name } }

/-! ### Lifecycle (`start`, `stop`) -/

/-- The body of the loop in `start`. -/
def startStep (acc : Sys) (name : String) : Sys :=
  if dictContains acc.st.handlers name then acc else attachHandler acc name

/-- `LogListener.start`. -/
def start (s : Sys) : Sys :=
  if s.st.running then s
  else
    let s1 := s.st.watchedLoggers.foldl startStep s
    { s1 with st := { s1.st with running := true } }

/-- `LogListener.stop`. -/
def stop (s : Sys) : Sys :=
  if s.st.running then
    let names := s.st.handlers.map Prod.fst
    let s1 := names.foldl detachHandler s
    { s1 with st := { s1.st with handlers := [], running := false } }
  else s

/-! ### Callback registration (`on_level`, `on_keyword`, `on_any`, `off_*`) -/

/-- `LogListener.on_level`. -/
def onLevel (st : ListenerState) (lvl : LogLevel) (cb : Nat) : ListenerState :=
  let cur := dictGetD st.levelCallbacks lvl.value []
  { st with levelCallbacks := dictInsert st.levelCallbacks lvl.value (cur ++ [cb]) }

/-- `LogListener.on_keyword`. -/
def onKeyword (st : ListenerState) (keyword : String) (cb : Nat)
    (caseSensitive : Bool) : ListenerState :=
  let cur := dictGetD st.keywordCallbacks keyword []
  { st with keywordCallbacks :=
      dictInsert st.keywordCallbacks keyword (cur ++ [(cb, caseSensitive)]) }

/-- `LogListener.on_any`. -/
def onAny (st : ListenerState) (cb : Nat) : ListenerState :=
  { st with globalCallbacks := st.globalCallbacks ++ [cb] }

/-- `LogListener.off_level` (`none` is the Python `None` sentinel). -/
def offLevel (st : ListenerState) (lvl : LogLevel) (cb : Option Nat) : ListenerState :=
  match dictGet st.levelCallbacks lvl.value with
  | none => st
  | some l =>
    match cb with
    | none => { st with levelCallbacks := dictInsert st.levelCallbacks lvl.value [] }
    | some c =>
        { st with levelCallbacks :=
            dictInsert st.levelCallbacks lvl.value (l.filter (fun x => x ≠ c)) }

/-- `LogListener.off_keyword`. -/
def offKeyword (st : ListenerState) (keyword : String) (cb : Option Nat) : ListenerState :=
  match dictGet st.keywordCallbacks keyword with
  | none => st
  | some ps =>
    match cb with
    | none => { st with keywordCallbacks := dictInsert st.keywordCallbacks keyword [] }
    | some c =>
        { st with keywordCallbacks :=
            dictInsert st.keywordCallbacks keyword (ps.filter (fun p => p.1 ≠ c)) }

/-- `LogListener.off_any`. -/
def offAny (st : ListenerState) (cb : Option Nat) : ListenerState :=
  match cb with
  | none => { st with globalCallbacks := [] }
  | some c => { st with globalCallbacks := st.globalCallbacks.filter (fun x => x ≠ c) }

/-- `LogListener.clear_callbacks`. -/
def clearCallbacks (st : ListenerState) : ListenerState :=
  { st with levelCallbacks := [], keywordCallbacks := [], globalCallbacks := [] }

/-! ### Dispatch (`_dispatch_callbacks`, `_safe_call`) -/

/-- Executing the user callback `cb` on a record: the environment `beh` says
which callbacks raise an exception when invoked. -/
def runCallback (beh : Nat → Bool) (cb : Nat) : Except Unit Unit :=
  if beh cb then Except.error () else Except.ok ()

/-- `LogListener._safe_call`: invoke the callback inside a try/except that
swallows any exception; the accumulator records the invocation, which has
taken place in either case. -/
def safeCall (beh : Nat → Bool) (acc : List Nat) (cb : Nat) : List Nat :=
  match runCallback beh cb with
  | Except.ok _ => acc ++ [cb]
  | Except.error _ => acc ++ [cb]

/-- Python `str.lower` for the character range the module handles. -/
def pyLower (s : String) : String :=
  String.mk (s.data.map Char.toLower)

/-- Helper for `reSearch`: does `p` occur as a prefix of some suffix of the
scanned text. -/
def searchFrom (p : List Char) : List Char → Bool
  | [] => p.isPrefixOf ([] : List Char)
  | c :: rest => p.isPrefixOf (c :: rest) || searchFrom p rest

/-- Model of `re.search(pattern, text)` for literal patterns (the keywords
exercised here contain no regex metacharacters, for which a search succeeds
exactly when the pattern occurs as a substring). -/
def reSearch (pat text : String) : Bool :=
  searchFrom pat.data text.data

/-- The per-pair match test of step 3 of `_dispatch_callbacks` (lines
458-463): normalize message and pattern according to `case_sensitive`, then
run the regex search (the engine itself is a parameter). -/
def keywordMatch (search : String → String → Bool) (keyword : String)
    (caseSensitive : Bool) (msg : String) : Bool :=
  let message := if caseSensitive then msg else pyLower msg
  let pattern := if caseSensitive then keyword else pyLower keyword
  search pattern message

/-- `LogListener._dispatch_callbacks`: returns the invocation trace (the
callback ids invoked, in order; `safeCall` records an invocation whether or
not the callback raises). -/
def dispatchCallbacks (search : String → String → Bool) (st : ListenerState)
    (r : LogRecord) (beh : Nat → Bool) : List Nat :=
  let t1 := st.globalCallbacks.foldl (safeCall beh) []
  let t2 :=
    match dictGet st.levelCallbacks r.level with
    | none => t1
    | some cbs => cbs.foldl (safeCall beh) t1
  st.keywordCallbacks.foldl
    (fun acc kv =>
      kv.2.foldl
        (fun acc2 p =>
          if keywordMatch search kv.1 p.2 r.message then safeCall beh acc2 p.1
          else acc2)
        acc)
    t2

/-- Closed form of the dispatch trace: global callbacks in registration
order, then the level callbacks registered for the record's level, then for
each keyword key in registration order the matching pairs' callbacks. -/
def dispatchTrace (search : String → String → Bool) (st : ListenerState)
    (r : LogRecord) : List Nat :=
  st.globalCallbacks
    ++ (match dictGet st.levelCallbacks r.level with
        | none => []
        | some cbs => cbs)
    ++ st.keywordCallbacks.flatMap
        (fun kv =>
          (kv.2.filter (fun p => keywordMatch search kv.1 p.2 r.message)).map
            Prod.fst)

/-! ### Reachable listener states -/

/-- The watch/lifecycle calls of the public API. -/
inductive Op where
  | watchOp (name : String) (intercept : Bool)
  | unwatchOp (name : String)
  | startOp
  | stopOp

/-- Apply one public call. -/
def applyOp (s : Sys) : Op → Sys
  | .watchOp n b => watch s n b
  | .unwatchOp n => unwatch s n
  | .startOp => start s
  | .stopOp => stop s

/-- Run a call sequence. -/
def runOps (s : Sys) (ops : List Op) : Sys :=
  ops.foldl applyOp s

/-- The saved-state bookkeeping that actually holds at every reachable
state: the two saved maps have the same domain, and a saved entry implies a
currently attached capturing handler. -/
def SavedOk (s : Sys) : Prop :=
  ∀ name : String,
    (dictGet s.st.originalHandlers name).isSome
        = (dictGet s.st.originalPropagate name).isSome
      ∧ ((dictGet s.st.originalHandlers name).isSome = true →
          (dictGet s.st.handlers name).isSome = true)

/-! ### Dictionary lemmas -/

theorem dictGet_insert_self [DecidableEq κ] (d : List (κ × α)) (k : κ) (v : α) :
    dictGet (dictInsert d k v) k = some v := by
  induction d with
  | nil => simp [dictInsert, dictGet]
  | cons p rest ih =>
    obtain ⟨k1, v1⟩ := p
    by_cases h : k1 = k
    · simp [dictInsert, dictGet, h]
    · simp [dictInsert, dictGet, h, ih]

theorem dictGet_insert_ne [DecidableEq κ] (d : List (κ × α)) (k : κ) (v : α)
    (k' : κ) (hne : k' ≠ k) : dictGet (dictInsert d k v) k' = dictGet d k' := by
  have hne' : k ≠ k' := Ne.symm hne
  induction d with
  | nil => simp [dictInsert, dictGet, hne']
  | cons p rest ih =>
    obtain ⟨k1, v1⟩ := p
    by_cases h : k1 = k
    · subst h
      simp [dictInsert, dictGet, hne']
    · simp only [dictInsert, if_neg h]
      by_cases h2 : k1 = k'
      · simp [dictGet, h2]
      · simp [dictGet, h2, ih]

theorem dictGet_erase_self [DecidableEq κ] (d : List (κ × α)) (k : κ) :
    dictGet (dictErase d k) k = none := by
  induction d with
  | nil => simp [dictErase, dictGet]
  | cons p rest ih =>
    obtain ⟨k1, v1⟩ := p
    by_cases h : k1 = k
    · simp [dictErase, h, ih]
    · simp [dictErase, dictGet, h, ih]

theorem dictGet_erase_ne [DecidableEq κ] (d : List (κ × α)) (k k' : κ)
    (hne : k' ≠ k) : dictGet (dictErase d k) k' = dictGet d k' := by
  have hne' : k ≠ k' := Ne.symm hne
  induction d with
  | nil => simp [dictErase]
  | cons p rest ih =>
    obtain ⟨k1, v1⟩ := p
    by_cases h : k1 = k
    · subst h
      simp [dictErase, dictGet, hne', ih]
    · simp only [dictErase, if_neg h]
      by_cases h2 : k1 = k'
      · simp [dictGet, h2]
      · simp [dictGet, h2, ih]

theorem dictErase_of_get_none [DecidableEq κ] (d : List (κ × α)) (k : κ)
    (h : dictGet d k = none) : dictErase d k = d := by
  induction d with
  | nil => rfl
  | cons p rest ih =>
    obtain ⟨k1, v1⟩ := p
    by_cases hk : k1 = k
    · simp [dictGet, hk] at h
    · simp only [dictGet, if_neg hk] at h
      simp [dictErase, hk, ih h]

theorem dictInsert_of_get_self [DecidableEq κ] (d : List (κ × α)) (k : κ) (v : α)
    (h : dictGet d k = some v) : dictInsert d k v = d := by
  induction d with
  | nil => simp [dictGet] at h
  | cons p rest ih =>
    obtain ⟨k1, v1⟩ := p
    by_cases hk : k1 = k
    · simp only [dictGet, if_pos hk, Option.some.injEq] at h
      simp [dictInsert, hk, h]
    · simp only [dictGet, if_neg hk] at h
      simp [dictInsert, hk, ih h]

theorem dictInsert_keys_of_get_none [DecidableEq κ] (d : List (κ × α)) (k : κ)
    (v : α) (h : dictGet d k = none) :
    (dictInsert d k v).map Prod.fst = d.map Prod.fst ++ [k] := by
  induction d with
  | nil => rfl
  | cons p rest ih =>
    obtain ⟨k1, v1⟩ := p
    by_cases hk : k1 = k
    · simp [dictGet, hk] at h
    · simp only [dictGet, if_neg hk] at h
      simp [dictInsert, hk, ih h]

theorem mem_keys_of_get_isSome [DecidableEq κ] (d : List (κ × α)) (k : κ)
    (h : (dictGet d k).isSome = true) : k ∈ d.map Prod.fst := by
  induction d with
  | nil => simp [dictGet] at h
  | cons p rest ih =>
    obtain ⟨k1, v1⟩ := p
    by_cases hk : k1 = k
    · simp [hk]
    · simp only [dictGet, if_neg hk] at h
      simp [ih h]

theorem listRemove_of_not_mem [DecidableEq α] (l : List α) (a : α)
    (h : a ∉ l) : listRemove l a = l := by
  induction l with
  | nil => rfl
  | cons x xs ih =>
    simp only [List.mem_cons, not_or] at h
    simp [listRemove, Ne.symm h.1, ih h.2]

theorem listRemove_cons_self [DecidableEq α] (l : List α) (a : α) :
    listRemove (a :: l) a = l := by
  simp [listRemove]

/-! ### Logger lemmas -/

theorem removeHandler_propagate (l : Logger) (h : Handler) :
    (removeHandler l h).propagate = l.propagate := by
  unfold removeHandler
  split <;> rfl

theorem addHandler_propagate (l : Logger) (h : Handler) :
    (addHandler l h).propagate = l.propagate := by
  unfold addHandler
  split <;> rfl

theorem foldl_removeHandler_propagate (hs : List Handler) :
    ∀ l : Logger, (hs.foldl removeHandler l).propagate = l.propagate := by
  induction hs with
  | nil => intro l; rfl
  | cons x xs ih => intro l; simp [List.foldl_cons, ih, removeHandler_propagate]

theorem foldl_removeHandler_self (hs : List Handler) :
    ∀ l : Logger, l.handlers = hs → (hs.foldl removeHandler l).handlers = [] := by
  induction hs with
  | nil => intro l hl; simpa using hl
  | cons x xs ih =>
    intro l hl
    have hx : x ∈ l.handlers := by simp [hl]
    have hstep : removeHandler l x = { l with handlers := xs } := by
      simp [removeHandler, hx, hl, listRemove_cons_self]
    rw [List.foldl_cons, hstep]
    exact ih _ rfl

theorem foldl_addHandler_propagate (hs : List Handler) :
    ∀ l : Logger, (hs.foldl addHandler l).propagate = l.propagate := by
  induction hs with
  | nil => intro l; rfl
  | cons x xs ih => intro l; simp [List.foldl_cons, ih, addHandler_propagate]

theorem foldl_addHandler_handlers (hs : List Handler) :
    ∀ l : Logger, (l.handlers ++ hs).Nodup →
      (hs.foldl addHandler l).handlers = l.handlers ++ hs := by
  induction hs with
  | nil => intro l _; simp
  | cons x xs ih =>
    intro l hnd
    have hx : x ∉ l.handlers := by
      rw [List.nodup_append] at hnd
      intro hmem
      exact hnd.2.2 hmem (by simp)
    have hstep : addHandler l x = { l with handlers := l.handlers ++ [x] } := by
      simp [addHandler, hx]
    rw [List.foldl_cons, hstep]
    have hnd' : (({ l with handlers := l.handlers ++ [x] } : Logger).handlers ++ xs).Nodup := by
      simpa [List.append_assoc] using hnd
    rw [ih _ hnd']
    simp

/-! ### Attach / detach characterizations -/

theorem setLogger_self (f : String → Logger) (n : String) (l : Logger) :
    setLogger f n l n = l := by
  simp [setLogger]

theorem setLogger_ne (f : String → Logger) (n : String) (l : Logger) (m : String)
    (hm : m ≠ n) : setLogger f n l m = f m := by
  simp [setLogger, hm]

theorem loggerExt (l1 l2 : Logger) (hh : l1.handlers = l2.handlers)
    (hp : l1.propagate = l2.propagate) : l1 = l2 := by
  cases l1; cases l2; simp_all

theorem attach_st_handlers (s : Sys) (name : String) :
    (attachHandler s name).st.handlers
      = dictInsert s.st.handlers name (capturingHandler s.nextId) := by
  cases h : dictGetD s.st.interceptSettings name false <;> simp [attachHandler, h]

theorem attach_nextId (s : Sys) (name : String) :
    (attachHandler s name).nextId = s.nextId + 1 := by
  cases h : dictGetD s.st.interceptSettings name false <;> simp [attachHandler, h]

theorem attach_st_watched (s : Sys) (name : String) :
    (attachHandler s name).st.watchedLoggers = s.st.watchedLoggers := by
  cases h : dictGetD s.st.interceptSettings name false <;> simp [attachHandler, h]

theorem attach_st_intercepts (s : Sys) (name : String) :
    (attachHandler s name).st.interceptSettings = s.st.interceptSettings := by
  cases h : dictGetD s.st.interceptSettings name false <;> simp [attachHandler, h]

theorem attach_st_running (s : Sys) (name : String) :
    (attachHandler s name).st.running = s.st.running := by
  cases h : dictGetD s.st.interceptSettings name false <;> simp [attachHandler, h]

theorem attach_saved_of_intercept {s : Sys} {name : String}
    (hint : dictGetD s.st.interceptSettings name false = true) :
    (attachHandler s name).st.originalHandlers
        = dictInsert s.st.originalHandlers name (s.loggers name).handlers
      ∧ (attachHandler s name).st.originalPropagate
        = dictInsert s.st.originalPropagate name (s.loggers name).propagate := by
  constructor <;> simp [attachHandler, hint]

theorem attach_saved_of_shadow {s : Sys} {name : String}
    (hsh : dictGetD s.st.interceptSettings name false = false) :
    (attachHandler s name).st.originalHandlers = s.st.originalHandlers
      ∧ (attachHandler s name).st.originalPropagate = s.st.originalPropagate := by
  constructor <;> simp [attachHandler, hsh]

theorem attach_loggers_ne (s : Sys) (name m : String) (hm : m ≠ name) :
    (attachHandler s name).loggers m = s.loggers m := by
  cases h : dictGetD s.st.interceptSettings name false <;>
    simp [attachHandler, h, setLogger, hm]

theorem attach_logger_intercept {s : Sys} {name : String}
    (hint : dictGetD s.st.interceptSettings name false = true) :
    (attachHandler s name).loggers name
      = { handlers := [capturingHandler s.nextId], propagate := false } := by
  have h1 : (({ s.loggers name with propagate := false } : Logger)).handlers
      = (s.loggers name).handlers := rfl
  have h2 := foldl_removeHandler_self (s.loggers name).handlers
    { s.loggers name with propagate := false } h1.symm
  have h3 := foldl_removeHandler_propagate (s.loggers name).handlers
    { s.loggers name with propagate := false }
  have h4 : (s.loggers name).handlers.foldl removeHandler
      { s.loggers name with propagate := false }
      = { handlers := [], propagate := false } := by
    exact loggerExt _ _ h2 h3
  simp [attachHandler, hint, setLogger, h4, addHandler]

theorem attach_logger_shadow_handlers {s : Sys} {name : String}
    (hsh : dictGetD s.st.interceptSettings name false = false)
    (hfresh : capturingHandler s.nextId ∉ (s.loggers name).handlers) :
    ((attachHandler s name).loggers name).handlers
      = (s.loggers name).handlers ++ [capturingHandler s.nextId] := by
  simp [attachHandler, hsh, setLogger, addHandler, hfresh]

theorem attach_logger_shadow_propagate {s : Sys} {name : String}
    (hsh : dictGetD s.st.interceptSettings name false = false) :
    ((attachHandler s name).loggers name).propagate = (s.loggers name).propagate := by
  simp [attachHandler, hsh, setLogger, addHandler_propagate]

theorem detach_of_get_none {s : Sys} {name : String}
    (h : dictGet s.st.handlers name = none) : detachHandler s name = s := by
  simp [detachHandler, h]

theorem detach_st_of_get_some {s : Sys} {name : String} {hdl : Handler}
    (h : dictGet s.st.handlers name = some hdl) :
    (detachHandler s name).st = { s.st with
      handlers := dictErase s.st.handlers name
      originalHandlers := dictErase s.st.originalHandlers name
      originalPropagate := dictErase s.st.originalPropagate name } := by
  simp only [detachHandler, h]
  cases h1 : dictGet s.st.originalHandlers name with
  | none =>
    cases h2 : dictGet s.st.originalPropagate name with
    | none => simp [dictErase_of_get_none _ _ h1, dictErase_of_get_none _ _ h2]
    | some b => simp [dictErase_of_get_none _ _ h1]
  | some o =>
    cases h2 : dictGet s.st.originalPropagate name with
    | none => simp [dictErase_of_get_none _ _ h2]
    | some b => simp

theorem detach_logger_of_saved {s : Sys} {name : String} {hdl : Handler}
    {orig : List Handler} {b : Bool}
    (h : dictGet s.st.handlers name = some hdl)
    (h1 : dictGet s.st.originalHandlers name = some orig)
    (h2 : dictGet s.st.originalPropagate name = some b) :
    (detachHandler s name).loggers name
      = { orig.foldl addHandler (removeHandler (s.loggers name) hdl) with
          propagate := b } := by
  simp [detachHandler, h, h1, h2, setLogger]

theorem detach_logger_of_unsaved {s : Sys} {name : String} {hdl : Handler}
    (h : dictGet s.st.handlers name = some hdl)
    (h1 : dictGet s.st.originalHandlers name = none)
    (h2 : dictGet s.st.originalPropagate name = none) :
    (detachHandler s name).loggers name = removeHandler (s.loggers name) hdl := by
  simp [detachHandler, h, h1, h2, setLogger]

theorem detach_loggers_ne (s : Sys) (name m : String) (hm : m ≠ name) :
    (detachHandler s name).loggers m = s.loggers m := by
  cases h : dictGet s.st.handlers name with
  | none => rw [detach_of_get_none h]
  | some hd => simp [detachHandler, h, setLogger, hm]

theorem detach_nextId (s : Sys) (name : String) :
    (detachHandler s name).nextId = s.nextId := by
  cases h : dictGet s.st.handlers name with
  | none => rw [detach_of_get_none h]
  | some hd => simp [detachHandler, h]

/-! ### Dispatch lemmas -/

theorem safeCall_eq (beh : Nat → Bool) (acc : List Nat) (cb : Nat) :
    safeCall beh acc cb = acc ++ [cb] := by
  cases h : beh cb <;> simp [safeCall, runCallback, h]

theorem foldl_safeCall (beh : Nat → Bool) :
    ∀ (cbs acc : List Nat), cbs.foldl (safeCall beh) acc = acc ++ cbs := by
  intro cbs
  induction cbs with
  | nil => intro acc; simp
  | cons x xs ih => intro acc; simp [List.foldl_cons, safeCall_eq, ih]

theorem foldl_keyword_pairs (search : String → String → Bool) (beh : Nat → Bool)
    (kw msg : String) :
    ∀ (ps : List (Nat × Bool)) (acc : List Nat),
      ps.foldl
          (fun acc2 p =>
            if keywordMatch search kw p.2 msg then safeCall beh acc2 p.1 else acc2)
          acc
        = acc ++ (ps.filter (fun p => keywordMatch search kw p.2 msg)).map Prod.fst := by
  intro ps
  induction ps with
  | nil => intro acc; simp
  | cons p rest ih =>
    intro acc
    simp only [List.foldl_cons]
    cases hc : keywordMatch search kw p.2 msg
    · rw [if_neg (by simp), ih]
      have hf : List.filter (fun q => keywordMatch search kw q.2 msg) (p :: rest)
          = List.filter (fun q => keywordMatch search kw q.2 msg) rest := by
        simp [List.filter_cons, hc]
      rw [hf]
    · rw [if_pos rfl, safeCall_eq, ih]
      have hf : List.filter (fun q => keywordMatch search kw q.2 msg) (p :: rest)
          = p :: List.filter (fun q => keywordMatch search kw q.2 msg) rest := by
        simp [List.filter_cons, hc]
      rw [hf]
      simp

theorem foldl_keyword (search : String → String → Bool) (beh : Nat → Bool)
    (msg : String) :
    ∀ (kvs : List (String × List (Nat × Bool))) (acc : List Nat),
      kvs.foldl
          (fun acc kv =>
            kv.2.foldl
              (fun acc2 p =>
                if keywordMatch search kv.1 p.2 msg then safeCall beh acc2 p.1
                else acc2)
              acc)
          acc
        = acc
          ++ kvs.flatMap
              (fun kv =>
                (kv.2.filter (fun p => keywordMatch search kv.1 p.2 msg)).map
                  Prod.fst) := by
  intro kvs
  induction kvs with
  | nil => intro acc; simp
  | cons kv rest ih =>
    intro acc
    simp only [List.foldl_cons]
    rw [foldl_keyword_pairs, ih]
    simp [List.append_assoc]

theorem dispatch_eq_trace (search : String → String → Bool) (st : ListenerState)
    (r : LogRecord) (beh : Nat → Bool) :
    dispatchCallbacks search st r beh = dispatchTrace search st r := by
  unfold dispatchCallbacks dispatchTrace
  cases h : dictGet st.levelCallbacks r.level <;>
    simp [h, foldl_safeCall, foldl_keyword, List.append_assoc]

/-- The registry state of the spec's concrete dispatch scenario: one global
callback (id 1), one ERROR-level callback (id 2), one case-insensitive
keyword callback on "err" (id 3). -/
def scenarioState : ListenerState :=
  { initListener with
      globalCallbacks := [1]
      levelCallbacks := [(LogLevel.error.value, [2])]
      keywordCallbacks := [("err", [(3, false)])] }

/-- An ERROR record whose message contains "error". -/
def scenarioRecord : LogRecord :=
  { loggerName := "svc"
    level := 40
    levelName := "ERROR"
    message := "an error occurred"
    timestamp := 0
    pathname := ""
    lineno := 0
    funcName := "" }

/-- C3: for every dispatched record the callbacks fire as: all global
callbacks in registration order, then the level callbacks registered for the
record's level (when that level has an entry), then for every keyword key in
registration order each matching pair's callback; in the concrete scenario
(global G = 1, level-ERROR A = 2, keyword-"err" B = 3, an ERROR record whose
message matches "err") the trace is exactly G, A, B, each once. -/
theorem dispatch_ordering :
    (∀ (search : String → String → Bool) (st : ListenerState) (r : LogRecord)
        (beh : Nat → Bool),
        dispatchCallbacks search st r beh = dispatchTrace search st r)
    ∧ dispatchCallbacks reSearch scenarioState scenarioRecord (fun _ => false)
        = [1, 2, 3] := by
  constructor
  · intro search st r beh
    exact dispatch_eq_trace search st r beh
  · decide

/-- C7: matching with `case_sensitive=false` lowercases both the pattern and
the message before handing them to the regex search, matching with
`case_sensitive=true` hands both over unchanged; consequently keyword "ERR"
does not match message "error" case-sensitively but does match it
case-insensitively. -/
theorem keyword_case_sensitivity :
    (∀ (search : String → String → Bool) (kw msg : String),
        keywordMatch search kw false msg = search (pyLower kw) (pyLower msg))
    ∧ (∀ (search : String → String → Bool) (kw msg : String),
        keywordMatch search kw true msg = search kw msg)
    ∧ keywordMatch reSearch "ERR" true "error" = false
    ∧ keywordMatch reSearch "ERR" false "error" = true := by
  refine ⟨fun search kw msg => rfl, fun search kw msg => rfl, ?_, ?_⟩ <;> decide

/-- C8: `_safe_call` wraps every callback invocation in a try/except that
swallows the exception, so the dispatch trace is identical whatever set of
callbacks raises (every remaining callback still runs), and dispatch itself
is a total function of the registries — no exception reaches the log call
site.  The second conjunct shows the model does let callbacks raise. -/
theorem callback_exception_isolation :
    (∀ (search : String → String → Bool) (st : ListenerState) (r : LogRecord)
        (beh : Nat → Bool),
        dispatchCallbacks search st r beh
          = dispatchCallbacks search st r (fun _ => false))
    ∧ (∀ (beh : Nat → Bool) (cb : Nat), beh cb = true →
        runCallback beh cb = Except.error ()) := by
  constructor
  · intro search st r beh
    rw [dispatch_eq_trace, dispatch_eq_trace]
  · intro beh cb h
    simp [runCallback, h]

/-- Closed instance of C8: with callback 2 raising, the trace of the
concrete scenario is unchanged, and callback 2 does raise. -/
theorem callback_exception_isolation_witness :
    dispatchCallbacks reSearch scenarioState scenarioRecord (fun cb => cb == 2)
        = dispatchCallbacks reSearch scenarioState scenarioRecord (fun _ => false)
      ∧ runCallback (fun cb => cb == 2) 2 = Except.error () :=
  ⟨callback_exception_isolation.1 reSearch scenarioState scenarioRecord
      (fun cb => cb == 2),
   callback_exception_isolation.2 (fun cb => cb == 2) 2 (by decide)⟩

/-- C1: for a logger watched with `intercept=true`, attaching (as `start()`
does) and then detaching (as `stop()` does) restores the logger exactly as
found: same handler objects in the same order, same propagate flag.  The
`Nodup` hypothesis records the backend invariant that `addHandler` never
duplicates a handler object in a logger's list. -/
theorem intercept_attach_detach_roundtrip (s : Sys) (name : String)
    (hint : dictGetD s.st.interceptSettings name false = true)
    (hnodup : (s.loggers name).handlers.Nodup) :
    ((detachHandler (attachHandler s name) name).loggers name).handlers
        = (s.loggers name).handlers
      ∧ ((detachHandler (attachHandler s name) name).loggers name).propagate
        = (s.loggers name).propagate := by
  have hH : dictGet (attachHandler s name).st.handlers name
      = some (capturingHandler s.nextId) := by
    rw [attach_st_handlers]
    exact dictGet_insert_self _ _ _
  obtain ⟨hoh, hop⟩ := attach_saved_of_intercept hint
  have h1 : dictGet (attachHandler s name).st.originalHandlers name
      = some (s.loggers name).handlers := by
    rw [hoh]
    exact dictGet_insert_self _ _ _
  have h2 : dictGet (attachHandler s name).st.originalPropagate name
      = some (s.loggers name).propagate := by
    rw [hop]
    exact dictGet_insert_self _ _ _
  have hrm : removeHandler ((attachHandler s name).loggers name)
      (capturingHandler s.nextId) = { handlers := [], propagate := false } := by
    rw [attach_logger_intercept hint]
    simp [removeHandler, listRemove]
  have hrt := detach_logger_of_saved hH h1 h2
  rw [hrm] at hrt
  have hfold := foldl_addHandler_handlers (s.loggers name).handlers
    { handlers := [], propagate := false } (by simpa using hnodup)
  constructor
  · rw [hrt]
    simpa using hfold
  · rw [hrt]

/-- Concrete instance of C1: a logger with one pre-existing handler and
propagate set, watched interceptingly, is restored bit-for-bit. -/
def roundtripSys : Sys :=
  { loggers := fun _ =>
      { handlers := [{ hid := 5, hlevel := 20 }], propagate := true }
    nextId := 7
    st := { initListener with
              watchedLoggers := ["svc.error"]
              interceptSettings := [("svc.error", true)] } }

/-- Witness for C1 at `roundtripSys`. -/
theorem intercept_attach_detach_roundtrip_witness :
    dictGetD roundtripSys.st.interceptSettings "svc.error" false = true
      ∧ (roundtripSys.loggers "svc.error").handlers.Nodup
      ∧ (((detachHandler (attachHandler roundtripSys "svc.error") "svc.error").loggers
              "svc.error").handlers
            = (roundtripSys.loggers "svc.error").handlers
          ∧ ((detachHandler (attachHandler roundtripSys "svc.error") "svc.error").loggers
              "svc.error").propagate
            = (roundtripSys.loggers "svc.error").propagate) :=
  ⟨by decide, by decide,
   intercept_attach_detach_roundtrip roundtripSys "svc.error" (by decide) (by decide)⟩

/-- C5: for a logger watched with `intercept=false`, attaching only adds the
capturing handler: the pre-existing handler list is a prefix of the new one
(identity and order untouched), the propagate flag and the saved-state maps
are unchanged, and a record at any standard level still reaches every
pre-existing handler that received it before, with the capturing handler
appended as an additional receiver. -/
theorem shadow_attach_frame (s : Sys) (name : String)
    (hsh : dictGetD s.st.interceptSettings name false = false)
    (hfresh : capturingHandler s.nextId ∉ (s.loggers name).handlers) :
    ((attachHandler s name).loggers name).handlers
        = (s.loggers name).handlers ++ [capturingHandler s.nextId]
      ∧ ((attachHandler s name).loggers name).propagate
        = (s.loggers name).propagate
      ∧ (attachHandler s name).st.originalHandlers = s.st.originalHandlers
      ∧ (attachHandler s name).st.originalPropagate = s.st.originalPropagate
      ∧ ∀ lvl : Nat, 10 ≤ lvl →
          callHandlers ((attachHandler s name).loggers name) lvl
            = callHandlers (s.loggers name) lvl ++ [s.nextId] := by
  refine ⟨attach_logger_shadow_handlers hsh hfresh,
    attach_logger_shadow_propagate hsh, (attach_saved_of_shadow hsh).1,
    (attach_saved_of_shadow hsh).2, ?_⟩
  intro lvl hlvl
  have hh := attach_logger_shadow_handlers hsh hfresh
  simp [callHandlers, hh, List.filter_append, capturingHandler, hlvl]

/-- Concrete instance of C5: a shadow-watched logger with one handler. -/
def shadowSys : Sys :=
  { loggers := fun _ =>
      { handlers := [{ hid := 5, hlevel := 20 }], propagate := true }
    nextId := 7
    st := { initListener with
              watchedLoggers := ["uvicorn"]
              interceptSettings := [("uvicorn", false)] } }

/-- Witness for C5 at `shadowSys`, evaluated at level 40 (ERROR). -/
theorem shadow_attach_frame_witness :
    dictGetD shadowSys.st.interceptSettings "uvicorn" false = false
      ∧ capturingHandler shadowSys.nextId ∉ (shadowSys.loggers "uvicorn").handlers
      ∧ ((attachHandler shadowSys "uvicorn").loggers "uvicorn").handlers
          = (shadowSys.loggers "uvicorn").handlers ++ [capturingHandler 7]
      ∧ callHandlers ((attachHandler shadowSys "uvicorn").loggers "uvicorn") 40
          = callHandlers (shadowSys.loggers "uvicorn") 40 ++ [7] :=
  ⟨by decide, by decide,
   (shadow_attach_frame shadowSys "uvicorn" (by decide) (by decide)).1,
   (shadow_attach_frame shadowSys "uvicorn" (by decide) (by decide)).2.2.2.2 40
     (by decide)⟩

/-! ### Lifecycle lemmas -/

theorem start_of_running {s : Sys} (h : s.st.running = true) : start s = s := by
  simp [start, h]

theorem start_running (s : Sys) : (start s).st.running = true := by
  cases h : s.st.running <;> simp [start, h]

theorem stop_of_not_running {s : Sys} (h : s.st.running = false) : stop s = s := by
  simp [stop, h]

theorem stop_running (s : Sys) : (stop s).st.running = false := by
  cases h : s.st.running <;> simp [stop, h]

theorem stop_handlers_of_running {s : Sys} (h : s.st.running = true) :
    (stop s).st.handlers = [] := by
  simp [stop, h]

theorem foldl_startStep_keys :
    ∀ (names : List String) (acc : Sys), names.Nodup →
      (∀ n ∈ names, dictGet acc.st.handlers n = none) →
      ((names.foldl startStep acc).st.handlers).map Prod.fst
        = acc.st.handlers.map Prod.fst ++ names := by
  intro names
  induction names with
  | nil => intro acc _ _; simp
  | cons x xs ih =>
    intro acc hnd hnone
    have hx : dictGet acc.st.handlers x = none := hnone x (by simp)
    have hstep : startStep acc x = attachHandler acc x := by
      simp [startStep, dictContains, hx]
    rw [List.foldl_cons, hstep]
    have hnone' : ∀ n ∈ xs, dictGet (attachHandler acc x).st.handlers n = none := by
      intro n hn
      rw [attach_st_handlers]
      have hnx : n ≠ x := by
        rintro rfl
        exact (List.nodup_cons.mp hnd).1 hn
      rw [dictGet_insert_ne _ _ _ _ hnx]
      exact hnone n (by simp [hn])
    rw [ih _ (List.nodup_cons.mp hnd).2 hnone']
    rw [attach_st_handlers, dictInsert_keys_of_get_none _ _ _ hx]
    simp

/-- C4: `watch` always stores the new intercept value for the name; when the
listener is running and the name has no attached handler it attaches one
immediately (the freshly allocated capturing handler); when the name already
has an attached handler it does not re-attach (handler map, backend loggers,
allocation counter and saved state are all untouched).  Returning `self` for
chaining is the state-passing reading of the embedding. -/
theorem watch_semantics (s : Sys) (name : String) (b : Bool) :
    dictGet (watch s name b).st.interceptSettings name = some b
      ∧ (s.st.running = true → dictGet s.st.handlers name = none →
          dictGet (watch s name b).st.handlers name
            = some (capturingHandler s.nextId))
      ∧ (∀ hd : Handler, dictGet s.st.handlers name = some hd →
          (watch s name b).st.handlers = s.st.handlers
            ∧ (watch s name b).loggers = s.loggers
            ∧ (watch s name b).nextId = s.nextId
            ∧ (watch s name b).st.originalHandlers = s.st.originalHandlers
            ∧ (watch s name b).st.originalPropagate = s.st.originalPropagate) := by
  refine ⟨?_, ?_, ?_⟩
  · by_cases hg : (s.st.running && !dictContains s.st.handlers name) = true
    · have hw : watch s name b = attachHandler
          { s with st := { s.st with
              watchedLoggers := setAdd s.st.watchedLoggers name
              interceptSettings := dictInsert s.st.interceptSettings name b } }
          name := by
        simp [watch, hg]
      rw [hw, attach_st_intercepts]
      exact dictGet_insert_self _ _ _
    · have hw : watch s name b =
          { s with st := { s.st with
              watchedLoggers := setAdd s.st.watchedLoggers name
              interceptSettings := dictInsert s.st.interceptSettings name b } } := by
        simp only [watch]
        rw [if_neg]
        simpa using hg
      rw [hw]
      exact dictGet_insert_self _ _ _
  · intro hr hn
    have hg : (s.st.running && !dictContains s.st.handlers name) = true := by
      simp [hr, dictContains, hn]
    have hw : watch s name b = attachHandler
        { s with st := { s.st with
            watchedLoggers := setAdd s.st.watchedLoggers name
            interceptSettings := dictInsert s.st.interceptSettings name b } }
        name := by
      simp [watch, hg]
    rw [hw, attach_st_handlers]
    exact dictGet_insert_self _ _ _
  · intro hd hn
    have hg : ¬ ((s.st.running && !dictContains s.st.handlers name) = true) := by
      simp [dictContains, hn]
    have hw : watch s name b =
        { s with st := { s.st with
            watchedLoggers := setAdd s.st.watchedLoggers name
            interceptSettings := dictInsert s.st.interceptSettings name b } } := by
      simp only [watch]
      rw [if_neg]
      simpa using hg
    rw [hw]
    exact ⟨rfl, rfl, rfl, rfl, rfl⟩

/-- A running listener with nothing attached: `watch` attaches at once. -/
def watchSysA : Sys :=
  { loggers := fun _ => { handlers := [], propagate := true }
    nextId := 0
    st := { initListener with running := true } }

/-- A running listener with a handler already attached to "a". -/
def watchSysB : Sys :=
  { loggers := fun _ => { handlers := [capturingHandler 3], propagate := true }
    nextId := 4
    st := { initListener with
              watchedLoggers := ["a"]
              interceptSettings := [("a", false)]
              handlers := [("a", capturingHandler 3)]
              running := true } }

/-- Witness for C4: immediate attach on a running listener, overwrite of the
intercept value, and no re-attach for an already attached name. -/
theorem watch_semantics_witness :
    dictGet (watch watchSysA "a" true).st.handlers "a" = some (capturingHandler 0)
      ∧ dictGet (watch watchSysB "a" true).st.interceptSettings "a" = some true
      ∧ (watch watchSysB "a" true).st.handlers = watchSysB.st.handlers
      ∧ (watch watchSysB "a" true).nextId = watchSysB.nextId :=
  ⟨(watch_semantics watchSysA "a" true).2.1 (by decide) (by decide),
   (watch_semantics watchSysB "a" true).1,
   ((watch_semantics watchSysB "a" true).2.2 (capturingHandler 3) (by decide)).1,
   ((watch_semantics watchSysB "a" true).2.2 (capturingHandler 3) (by decide)).2.2.1⟩

/-- C6: `start` is idempotent (a second `start` changes nothing; a single
`start` from a stopped, detached listener attaches exactly one capturing
handler per watched name, keyed by that name), `stop` on a stopped listener
is the identity, `stop` is idempotent, and a completed `stop` empties the
attached-handler map. -/
theorem start_stop_idempotent (s : Sys) :
    (s.st.running = true → start s = s)
      ∧ start (start s) = start s
      ∧ (s.st.running = false → stop s = s)
      ∧ stop (stop s) = stop s
      ∧ (s.st.running = true → (stop s).st.handlers = [])
      ∧ (s.st.running = false → s.st.handlers = [] →
          s.st.watchedLoggers.Nodup →
          ((start s).st.handlers).map Prod.fst = s.st.watchedLoggers) := by
  refine ⟨fun h => start_of_running h, start_of_running (start_running s),
    fun h => stop_of_not_running h, stop_of_not_running (stop_running s),
    fun h => stop_handlers_of_running h, ?_⟩
  intro hr hh hnd
  have hnone : ∀ n ∈ s.st.watchedLoggers, dictGet s.st.handlers n = none := by
    intro n _
    rw [hh]
    rfl
  have hkeys := foldl_startStep_keys s.st.watchedLoggers s hnd hnone
  rw [hh] at hkeys
  simp only [List.map_nil, List.nil_append] at hkeys
  simp [start, hr, hkeys]

/-- A stopped listener watching two names. -/
def startSys : Sys :=
  { loggers := fun _ => { handlers := [], propagate := true }
    nextId := 0
    st := { initListener with
              watchedLoggers := ["a", "b"]
              interceptSettings := [("a", false), ("b", true)] } }

/-- Witness for C6: one start attaches one handler per watched name, and the
second start, plus the two stop facts, all at concrete states. -/
theorem start_stop_idempotent_witness :
    ((start startSys).st.handlers).map Prod.fst = ["a", "b"]
      ∧ start (start startSys) = start startSys
      ∧ stop (stop (start startSys)) = stop (start startSys)
      ∧ (stop (start startSys)).st.handlers = [] :=
  ⟨(start_stop_idempotent startSys).2.2.2.2.2 (by decide) (by decide) (by decide),
   (start_stop_idempotent startSys).2.1,
   (start_stop_idempotent (start startSys)).2.2.2.1,
   (start_stop_idempotent (start startSys)).2.2.2.2.1 (start_running startSys)⟩

theorem onLevel_get_self (st : ListenerState) (lvl : LogLevel) (c : Nat) :
    dictGet (onLevel st lvl c).levelCallbacks lvl.value
      = some (dictGetD st.levelCallbacks lvl.value [] ++ [c]) := by
  simp only [onLevel]
  exact dictGet_insert_self _ _ _

/-- C9: `unwatch` on a name that was never watched, and `off_level`,
`off_keyword`, `off_any` with an unknown level, keyword or callback, are
no-ops that leave the whole state unchanged (the embedding's operations are
total functions, mirroring the code's absence of raising paths, so none of
these calls can raise). -/
theorem notfound_noops (s : Sys) (st : ListenerState) (name kw : String)
    (lvl : LogLevel) (c : Nat) :
    (name ∉ s.st.watchedLoggers → dictGet s.st.handlers name = none →
        dictGet s.st.interceptSettings name = none → unwatch s name = s)
      ∧ (dictGet st.levelCallbacks lvl.value = none →
          offLevel st lvl (some c) = st)
      ∧ (∀ l, dictGet st.levelCallbacks lvl.value = some l → c ∉ l →
          offLevel st lvl (some c) = st)
      ∧ (dictGet st.keywordCallbacks kw = none →
          offKeyword st kw (some c) = st)
      ∧ (∀ ps, dictGet st.keywordCallbacks kw = some ps →
          (∀ p ∈ ps, p.1 ≠ c) → offKeyword st kw (some c) = st)
      ∧ (c ∉ st.globalCallbacks → offAny st (some c) = st) := by
  refine ⟨?_, ?_, ?_, ?_, ?_, ?_⟩
  · intro h1 h2 h3
    have hc : dictContains s.st.handlers name = false := by
      simp [dictContains, h2]
    simp [unwatch, listRemove_of_not_mem _ _ h1, hc,
      dictErase_of_get_none _ _ h3]
  · intro h
    simp [offLevel, h]
  · intro l hl hc
    have hne : ∀ a ∈ l, a ≠ c := fun a ha hac => hc (hac ▸ ha)
    have hf : l.filter (fun x => x ≠ c) = l := by
      refine List.filter_eq_self.mpr ?_
      intro a ha
      simpa using hne a ha
    simp only [offLevel, hl]
    rw [hf, dictInsert_of_get_self _ _ _ hl]
  · intro h
    simp [offKeyword, h]
  · intro ps hp hc
    have hf : ps.filter (fun p => p.1 ≠ c) = ps := by
      refine List.filter_eq_self.mpr ?_
      intro a ha
      simpa using hc a ha
    simp only [offKeyword, hp]
    rw [hf, dictInsert_of_get_self _ _ _ hp]
  · intro h
    have hne : ∀ a ∈ st.globalCallbacks, a ≠ c := fun a ha hac => h (hac ▸ ha)
    have hf : st.globalCallbacks.filter (fun x => x ≠ c) = st.globalCallbacks := by
      refine List.filter_eq_self.mpr ?_
      intro a ha
      simpa using hne a ha
    simp only [offAny]
    rw [hf]

/-- A state that has never seen the name "ghost" and a registry with one
entry, for exercising the no-ops. -/
def noopSys : Sys :=
  { loggers := fun _ => { handlers := [], propagate := true }
    nextId := 0
    st := { initListener with
              watchedLoggers := ["a"]
              interceptSettings := [("a", false)]
              levelCallbacks := [(40, [1])]
              keywordCallbacks := [("err", [(1, false)])]
              globalCallbacks := [1] } }

/-- Witness for C9: each not-found operation really is the identity on a
concrete state. -/
theorem notfound_noops_witness :
    unwatch noopSys "ghost" = noopSys
      ∧ offLevel noopSys.st LogLevel.info (some 9) = noopSys.st
      ∧ offLevel noopSys.st LogLevel.error (some 9) = noopSys.st
      ∧ offKeyword noopSys.st "warn" (some 9) = noopSys.st
      ∧ offKeyword noopSys.st "err" (some 9) = noopSys.st
      ∧ offAny noopSys.st (some 9) = noopSys.st :=
  ⟨(notfound_noops noopSys noopSys.st "ghost" "x" LogLevel.info 9).1
      (by decide) (by decide) (by decide),
   (notfound_noops noopSys noopSys.st "ghost" "x" LogLevel.info 9).2.1 (by decide),
   (notfound_noops noopSys noopSys.st "ghost" "x" LogLevel.error 9).2.2.1 [1]
      (by decide) (by decide),
   (notfound_noops noopSys noopSys.st "warn" "warn" LogLevel.info 9).2.2.2.1
      (by decide),
   (notfound_noops noopSys noopSys.st "err" "err" LogLevel.info 9).2.2.2.2.1
      [(1, false)] (by decide) (by decide),
   (notfound_noops noopSys noopSys.st "x" "x" LogLevel.info 9).2.2.2.2.2
      (by decide)⟩

/-- C10: removing a specific callback removes every occurrence equal to it
under that selector (so a doubly registered callback is fully gone after one
call), while unequal callbacks keep their relative order (the surviving list
is the order-preserving filter, a sublist of the original, with unchanged
multiplicities for other callbacks). -/
theorem off_removes_all_occurrences (st : ListenerState) (lvl : LogLevel)
    (kw : String) (c : Nat) :
    (∀ l, dictGet st.levelCallbacks lvl.value = some l →
        dictGet (offLevel st lvl (some c)).levelCallbacks lvl.value
            = some (l.filter (fun x => x ≠ c))
          ∧ (l.filter (fun x => x ≠ c)).count c = 0
          ∧ (l.filter (fun x => x ≠ c)).Sublist l
          ∧ ∀ x, x ≠ c → (l.filter (fun y => y ≠ c)).count x = l.count x)
      ∧ (∀ ps, dictGet st.keywordCallbacks kw = some ps →
          dictGet (offKeyword st kw (some c)).keywordCallbacks kw
              = some (ps.filter (fun p => p.1 ≠ c))
            ∧ (∀ p ∈ ps.filter (fun p => p.1 ≠ c), p.1 ≠ c)
            ∧ (ps.filter (fun p => p.1 ≠ c)).Sublist ps)
      ∧ ((offAny st (some c)).globalCallbacks
            = st.globalCallbacks.filter (fun x => x ≠ c)
          ∧ (st.globalCallbacks.filter (fun x => x ≠ c)).count c = 0)
      ∧ (dictGetD (offLevel (onLevel (onLevel st lvl c) lvl c) lvl
            (some c)).levelCallbacks lvl.value []).count c = 0 := by
  have hcount : ∀ l : List Nat, (l.filter (fun x => x ≠ c)).count c = 0 := by
    intro l
    refine List.count_eq_zero.mpr ?_
    intro hmem
    have := (List.mem_filter.mp hmem).2
    simp at this
  refine ⟨?_, ?_, ?_, ?_⟩
  · intro l hl
    refine ⟨?_, hcount l, List.filter_sublist l, ?_⟩
    · simp only [offLevel, hl]
      exact dictGet_insert_self _ _ _
    · intro x hx
      exact List.count_filter (by simpa using hx)
  · intro ps hp
    refine ⟨?_, ?_, List.filter_sublist ps⟩
    · simp only [offKeyword, hp]
      exact dictGet_insert_self _ _ _
    · intro p hmem
      simpa using (List.mem_filter.mp hmem).2
  · exact ⟨rfl, hcount _⟩
  · have e1 : dictGet (onLevel st lvl c).levelCallbacks lvl.value
        = some (dictGetD st.levelCallbacks lvl.value [] ++ [c]) :=
      onLevel_get_self st lvl c
    have e1d : dictGetD (onLevel st lvl c).levelCallbacks lvl.value []
        = dictGetD st.levelCallbacks lvl.value [] ++ [c] := by
      simp only [dictGetD, e1, Option.getD_some]
    have e2 : dictGet (onLevel (onLevel st lvl c) lvl c).levelCallbacks lvl.value
        = some ((dictGetD st.levelCallbacks lvl.value [] ++ [c]) ++ [c]) := by
      have := onLevel_get_self (onLevel st lvl c) lvl c
      rw [e1d] at this
      exact this
    have e3 : dictGet (offLevel (onLevel (onLevel st lvl c) lvl c) lvl
          (some c)).levelCallbacks lvl.value
        = some (((dictGetD st.levelCallbacks lvl.value [] ++ [c]) ++ [c]).filter
            (fun x => x ≠ c)) := by
      simp only [offLevel, e2]
      exact dictGet_insert_self _ _ _
    simp only [dictGetD, e3, Option.getD_some]
    exact hcount _

/-- A registry in which callback 7 is registered twice at level ERROR. -/
def offWitState : ListenerState :=
  { initListener with
      levelCallbacks := [(40, [7, 8, 7])]
      keywordCallbacks := [("err", [(7, true), (8, false)])]
      globalCallbacks := [7, 9, 7] }

/-- Witness for C10: one `off_level` call removes both occurrences of the
doubly registered callback 7, and the double-register-then-remove scenario
leaves zero occurrences. -/
theorem off_removes_all_occurrences_witness :
    dictGet (offLevel offWitState LogLevel.error (some 7)).levelCallbacks
        LogLevel.error.value = some ([7, 8, 7].filter (fun x => x ≠ 7))
      ∧ ([7, 8, 7].filter (fun x => x ≠ 7)).count 7 = 0
      ∧ (dictGetD (offLevel (onLevel (onLevel offWitState LogLevel.error 7)
            LogLevel.error 7) LogLevel.error
            (some 7)).levelCallbacks LogLevel.error.value []).count 7 = 0 :=
  ⟨((off_removes_all_occurrences offWitState LogLevel.error "err" 7).1 [7, 8, 7]
      (by decide)).1,
   ((off_removes_all_occurrences offWitState LogLevel.error "err" 7).1 [7, 8, 7]
      (by decide)).2.1,
   (off_removes_all_occurrences offWitState LogLevel.error "err" 7).2.2.2⟩

/-! ### Preservation of the saved-state bookkeeping -/

theorem attach_savedOk {s : Sys} {name : String} (hok : SavedOk s) :
    SavedOk (attachHandler s name) := by
  intro n
  by_cases hne : n = name
  · subst hne
    cases hint : dictGetD s.st.interceptSettings n false
    · obtain ⟨hoh, hop⟩ := attach_saved_of_shadow hint
      rw [hoh, hop, attach_st_handlers]
      refine ⟨(hok n).1, fun _ => ?_⟩
      rw [dictGet_insert_self]
      rfl
    · obtain ⟨hoh, hop⟩ := attach_saved_of_intercept hint
      rw [hoh, hop, attach_st_handlers]
      rw [dictGet_insert_self, dictGet_insert_self, dictGet_insert_self]
      simp
  · have hh : dictGet (attachHandler s name).st.handlers n
        = dictGet s.st.handlers n := by
      rw [attach_st_handlers, dictGet_insert_ne _ _ _ _ hne]
    cases hint : dictGetD s.st.interceptSettings name false
    · obtain ⟨hoh, hop⟩ := attach_saved_of_shadow hint
      rw [hoh, hop, hh]
      exact hok n
    · obtain ⟨hoh, hop⟩ := attach_saved_of_intercept hint
      rw [hoh, hop, hh, dictGet_insert_ne _ _ _ _ hne,
        dictGet_insert_ne _ _ _ _ hne]
      exact hok n

theorem detach_savedOk {s : Sys} {name : String} (hok : SavedOk s) :
    SavedOk (detachHandler s name) := by
  cases hh : dictGet s.st.handlers name with
  | none =>
    rw [detach_of_get_none hh]
    exact hok
  | some hd =>
    have hst := detach_st_of_get_some hh
    intro n
    by_cases hne : n = name
    · subst hne
      simp only [hst]
      rw [dictGet_erase_self, dictGet_erase_self]
      simp
    · simp only [hst]
      rw [dictGet_erase_ne _ _ _ hne, dictGet_erase_ne _ _ _ hne,
        dictGet_erase_ne _ _ _ hne]
      exact hok n

theorem detach_saved_mono {s : Sys} {name m : String}
    (h1 : dictGet s.st.originalHandlers name = none)
    (h2 : dictGet s.st.originalPropagate name = none) :
    dictGet (detachHandler s m).st.originalHandlers name = none
      ∧ dictGet (detachHandler s m).st.originalPropagate name = none := by
  cases hh : dictGet s.st.handlers m with
  | none =>
    rw [detach_of_get_none hh]
    exact ⟨h1, h2⟩
  | some hd =>
    have hst := detach_st_of_get_some hh
    by_cases hne : name = m
    · subst hne
      constructor <;> simp only [hst] <;> rw [dictGet_erase_self]
    · constructor <;> simp only [hst] <;> rw [dictGet_erase_ne _ _ _ hne]
      · exact h1
      · exact h2

theorem detach_saved_self_none {s : Sys} {name : String} (hok : SavedOk s) :
    dictGet (detachHandler s name).st.originalHandlers name = none
      ∧ dictGet (detachHandler s name).st.originalPropagate name = none := by
  cases hh : dictGet s.st.handlers name with
  | none =>
    rw [detach_of_get_none hh]
    have hOH : dictGet s.st.originalHandlers name = none := by
      cases hoh : dictGet s.st.originalHandlers name with
      | none => rfl
      | some o =>
        have hat := (hok name).2 (by rw [hoh]; rfl)
        rw [hh] at hat
        simp at hat
    have hOP : dictGet s.st.originalPropagate name = none := by
      have heq := (hok name).1
      rw [hOH] at heq
      cases hop : dictGet s.st.originalPropagate name with
      | none => rfl
      | some b =>
        rw [hop] at heq
        simp at heq
    exact ⟨hOH, hOP⟩
  | some hd =>
    have hst := detach_st_of_get_some hh
    constructor <;> simp only [hst] <;> rw [dictGet_erase_self]

theorem foldl_detach_savedOk (names : List String) :
    ∀ {s : Sys}, SavedOk s →
      SavedOk (names.foldl detachHandler s)
        ∧ (∀ n, dictGet s.st.originalHandlers n = none →
            dictGet s.st.originalPropagate n = none →
            dictGet (names.foldl detachHandler s).st.originalHandlers n = none
              ∧ dictGet (names.foldl detachHandler s).st.originalPropagate n
                = none)
        ∧ (∀ n ∈ names,
            dictGet (names.foldl detachHandler s).st.originalHandlers n = none
              ∧ dictGet (names.foldl detachHandler s).st.originalPropagate n
                = none) := by
  induction names with
  | nil =>
    intro s hok
    exact ⟨hok, fun n h1 h2 => ⟨h1, h2⟩, by simp⟩
  | cons x xs ih =>
    intro s hok
    simp only [List.foldl_cons]
    have hok1 : SavedOk (detachHandler s x) := detach_savedOk hok
    obtain ⟨ihok, ihmono, ihall⟩ := ih hok1
    refine ⟨ihok, ?_, ?_⟩
    · intro n h1 h2
      obtain ⟨g1, g2⟩ := detach_saved_mono (m := x) h1 h2
      exact ihmono n g1 g2
    · intro n hn
      rcases List.mem_cons.mp hn with h | h
      · subst h
        obtain ⟨g1, g2⟩ := @detach_saved_self_none s n hok
        exact ihmono n g1 g2
      · exact ihall n h

theorem watch_savedOk {s : Sys} {name : String} {b : Bool} (hok : SavedOk s) :
    SavedOk (watch s name b) := by
  have hok1 : SavedOk { s with st := { s.st with
      watchedLoggers := setAdd s.st.watchedLoggers name
      interceptSettings := dictInsert s.st.interceptSettings name b } } :=
    fun n => hok n
  unfold watch
  dsimp only
  split
  · exact attach_savedOk hok1
  · exact hok1

theorem unwatch_savedOk {s : Sys} {name : String} (hok : SavedOk s) :
    SavedOk (unwatch s name) := by
  have hok1 : SavedOk { s with st := { s.st with
      watchedLoggers := listRemove s.st.watchedLoggers name } } :=
    fun n => hok n
  have h2 : SavedOk (if dictContains
      ({ s with st := { s.st with
          watchedLoggers := listRemove s.st.watchedLoggers name } } : Sys).st.handlers
        name then
      detachHandler { s with st := { s.st with
        watchedLoggers := listRemove s.st.watchedLoggers name } } name
    else
      { s with st := { s.st with
        watchedLoggers := listRemove s.st.watchedLoggers name } }) := by
    split
    · exact detach_savedOk hok1
    · exact hok1
  exact fun n => h2 n

theorem foldl_startStep_savedOk (names : List String) :
    ∀ {s : Sys}, SavedOk s → SavedOk (names.foldl startStep s) := by
  induction names with
  | nil => intro s h; exact h
  | cons x xs ih =>
    intro s h
    rw [List.foldl_cons]
    apply ih
    unfold startStep
    split
    · exact h
    · exact attach_savedOk h

theorem start_savedOk {s : Sys} (hok : SavedOk s) : SavedOk (start s) := by
  unfold start
  split
  · exact hok
  · exact fun n => foldl_startStep_savedOk s.st.watchedLoggers hok n

theorem stop_savedOk {s : Sys} (hok : SavedOk s) : SavedOk (stop s) := by
  cases hr : s.st.running with
  | false =>
    rw [stop_of_not_running hr]
    exact hok
  | true =>
    obtain ⟨fok, fmono, fall⟩ :=
      foldl_detach_savedOk (s.st.handlers.map Prod.fst) hok
    intro n
    have hnone :
        dictGet ((s.st.handlers.map Prod.fst).foldl
            detachHandler s).st.originalHandlers n = none
          ∧ dictGet ((s.st.handlers.map Prod.fst).foldl
              detachHandler s).st.originalPropagate n = none := by
      by_cases hmem : n ∈ s.st.handlers.map Prod.fst
      · exact fall n hmem
      · have hOH : dictGet s.st.originalHandlers n = none := by
          cases hoh : dictGet s.st.originalHandlers n with
          | none => rfl
          | some o =>
            have hat := (hok n).2 (by rw [hoh]; rfl)
            exact absurd (mem_keys_of_get_isSome _ _ hat) hmem
        have hOP : dictGet s.st.originalPropagate n = none := by
          have heq := (hok n).1
          rw [hOH] at heq
          cases hop : dictGet s.st.originalPropagate n with
          | none => rfl
          | some b =>
            rw [hop] at heq
            simp at heq
        exact fmono n hOH hOP
    have hproj :
        (stop s).st.originalHandlers
            = ((s.st.handlers.map Prod.fst).foldl
                detachHandler s).st.originalHandlers
          ∧ (stop s).st.originalPropagate
            = ((s.st.handlers.map Prod.fst).foldl
                detachHandler s).st.originalPropagate := by
      constructor <;> simp [stop, hr]
    rw [hproj.1, hproj.2, hnone.1, hnone.2]
    simp

theorem applyOp_savedOk {s : Sys} (hok : SavedOk s) :
    ∀ op : Op, SavedOk (applyOp s op)
  | .watchOp _n _b => watch_savedOk hok
  | .unwatchOp _n => unwatch_savedOk hok
  | .startOp => start_savedOk hok
  | .stopOp => stop_savedOk hok

theorem runOps_savedOk (ops : List Op) :
    ∀ {s : Sys}, SavedOk s → SavedOk (runOps s ops) := by
  induction ops with
  | nil => intro s h; exact h
  | cons op rest ih =>
    intro s h
    simp only [runOps, List.foldl_cons]
    exact ih (applyOp_savedOk h op)

theorem initSavedOk (env : String → Logger) : SavedOk (initSys env) := by
  intro n
  simp [initSys, initListener, dictGet]

/-- The state reached from a fresh listener over fresh loggers by
`watch("a", intercept=false); start(); watch("a", intercept=true)`: the
second `watch` overwrites the intercept flag of a name that is already
attached in shadow mode, without re-attaching and without saving state. -/
def overwriteSys : Sys :=
  runOps (initSys (fun _ => { handlers := [], propagate := true }))
    [Op.watchOp "a" false, Op.startOp, Op.watchOp "a" true]

/-- Counterexample to C2 as stated: at the reachable state `overwriteSys`
the name "a" has intercept flag true and a capturing handler attached, yet
neither saved map has an entry for it, so the claimed "saved iff intercept
flag true and attached" equivalence is false at this state and name. -/
theorem saved_state_iff_counterexample :
    dictGetD overwriteSys.st.interceptSettings "a" false = true
      ∧ (dictGet overwriteSys.st.handlers "a").isSome = true
      ∧ dictGet overwriteSys.st.originalHandlers "a" = none
      ∧ dictGet overwriteSys.st.originalPropagate "a" = none
      ∧ ¬ (((dictGet overwriteSys.st.originalHandlers "a").isSome = true
              ∧ (dictGet overwriteSys.st.originalPropagate "a").isSome = true)
            ↔ (dictGetD overwriteSys.st.interceptSettings "a" false = true
              ∧ (dictGet overwriteSys.st.handlers "a").isSome = true)) := by
  decide

/-- C2 (amended): at every state reachable by watch/unwatch/start/stop from
a fresh listener, the original-handlers map and the original-propagate map
have an entry for a name iff the other does, and any such saved entry
implies a capturing handler is currently attached to that name; moreover
attaching a name whose intercept flag is true at attach time does create the
saved entries.  The converse direction of the original claim — tying saved
state to the *current* intercept flag — fails when an attached name is
re-watched with a different intercept value (see the counterexample). -/
theorem saved_state_invariant :
    (∀ (env : String → Logger) (ops : List Op),
        SavedOk (runOps (initSys env) ops))
      ∧ (∀ (s : Sys) (name : String),
          dictGetD s.st.interceptSettings name false = true →
            (dictGet (attachHandler s name).st.originalHandlers name).isSome
                = true
              ∧ (dictGet (attachHandler s name).st.originalPropagate
                  name).isSome = true
              ∧ (dictGet (attachHandler s name).st.handlers name).isSome
                = true) := by
  constructor
  · intro env ops
    exact runOps_savedOk ops (initSavedOk env)
  · intro s name hint
    obtain ⟨hoh, hop⟩ := attach_saved_of_intercept hint
    rw [hoh, hop, attach_st_handlers]
    rw [dictGet_insert_self, dictGet_insert_self, dictGet_insert_self]
    exact ⟨rfl, rfl, rfl⟩

/-- A fresh listener whose intercept flag for "a" is already set. -/
def attachWitSys : Sys :=
  { loggers := fun _ => { handlers := [], propagate := true }
    nextId := 0
    st := { initListener with interceptSettings := [("a", true)] } }

/-- Witness for the amended C2: attaching an intercept-flagged name creates
both saved entries and the attached handler, and the reachability invariant
instantiated after a concrete intercepting run implies attachment from a
saved entry. -/
theorem saved_state_invariant_witness :
    (dictGet (attachHandler attachWitSys "a").st.originalHandlers "a").isSome
        = true
      ∧ (dictGet (attachHandler attachWitSys "a").st.handlers "a").isSome
        = true
      ∧ (dictGet (runOps (initSys (fun _ =>
            { handlers := [], propagate := true }))
            [Op.watchOp "b" true, Op.startOp]).st.handlers "b").isSome = true :=
  ⟨(saved_state_invariant.2 attachWitSys "a" (by decide)).1,
   (saved_state_invariant.2 attachWitSys "a" (by decide)).2.2,
   ((saved_state_invariant.1 (fun _ => { handlers := [], propagate := true })
        [Op.watchOp "b" true, Op.startOp]) "b").2 (by decide)⟩

end XAILog
